import Mathlib

/-!
Verification of the `array2d` package: a generic 2-dimensional array over a
flat buffer, with row-major or column-major layout.  Each definition below is
a shallow embedding of the corresponding Go function in `array2d.go`; Go's
in-place mutation of the backing slice is modelled by explicit state passing.
Machine `int` coordinates are modelled by `Int` in the public accessors (the
sign checks of the source are kept) and by `Nat` after validation; the Go
zero value of the element type is `default` of an `Inhabited` instance.
-/

/-- `printThreshold` from the source: the size at which printing summarizes. -/
def printThreshold : Nat := 10

/-- `edgeItems` from the source: number of elements shown at each edge. -/
def edgeItems : Nat := 5

/-- Which coordinate argument failed a bounds check (the source reports the
failing coordinate by name in the wrapped error message). -/
inductive Coord where
  | row | col | row1 | col1 | row2 | col2
deriving DecidableEq, Repr

/-- Structured model of the errors produced by the package.  Each constructor
carries exactly the data the corresponding `fmt.Errorf` call interpolates. -/
inductive Err where
  /-- `ErrOutOfBounds` wrapped with the failing coordinate, its value, and
  the corresponding dimension. -/
  | outOfBounds (which : Coord) (index : Int) (limit : Nat)
  /-- `ErrShape` from `FromSlice`: actual slice length vs `width*height`. -/
  | shapeSlice (len expected : Nat)
  /-- `ErrShape` from `FromJagged`: jagged height exceeds the given height. -/
  | shapeHeight (given limit : Nat)
  /-- `ErrShape` from `FromJagged`: row `rowIdx` has length `rowLen`
  exceeding `width`. -/
  | shapeRow (rowIdx rowLen width : Nat)
  /-- `ErrNilDest` from `Scan`. -/
  | nilDest
  /-- `ErrDestLength` from `Scan`: actual destination length vs expected. -/
  | destLength (len expected : Nat)
deriving DecidableEq, Repr

/-- The `Array2D` struct: height, width, flat backing slice, layout flag. -/
structure Array2D (T : Type) where
  height : Nat
  width : Nat
  slice : List T
  colMajor : Bool
deriving DecidableEq, Repr

/-- Model of Go's `copy(l[s:], src)`: overwrite the elements of `l` starting
at position `s` with the elements of `src`, stopping when either `src` or `l`
is exhausted.  The length of `l` never changes. -/
def storeAt {T : Type} : List T → Nat → List T → List T
  | [], _, _ => []
  | x :: l, s + 1, src => x :: storeAt l s src
  | x :: l, 0, [] => x :: l
  | _ :: l, 0, v :: src => v :: storeAt l 0 src

/-- The loop of the source's `fill`: starting from index `i`, repeatedly
`copy(slice[i:], slice[:i])` and double `i` while `i < len(slice)`.  The Go
loop runs at most `log2 n` times; `fuel` is a bound on the iteration count
that is never reached for `fuel = n`. -/
def fillSteps {T : Type} : Nat → List T → Nat → List T
  | 0, l, _ => l
  | fuel + 1, l, i =>
    if i < l.length then fillSteps fuel (storeAt l i (l.take i)) (i + i)
    else l

/-- The source's `fill`: exponential doubling fill of a slice with a value.
Writes `value` at index 0, then doubles the filled prefix by copying. -/
def fill {T : Type} (slice : List T) (value : T) : List T :=
  match slice with
  | [] => []
  | _ :: _ => fillSteps slice.length (slice.set 0 value) 1

/-- `New`: a grid of `height*width` zero values (`default`). -/
def New (T : Type) [Inhabited T] (height width : Nat) (colMajor : Bool) :
    Array2D T :=
  ⟨height, width, List.replicate (width * height) default, colMajor⟩

/-- `NewFilled`: a grid whose buffer is filled with `value` by `fill`. -/
def NewFilled (T : Type) [Inhabited T] (height width : Nat) (value : T)
    (colMajor : Bool) : Array2D T :=
  ⟨height, width, fill (List.replicate (width * height) (default : T)) value,
    colMajor⟩

/-- `FromSlice`: wrap an existing buffer; error if the length is not
`width*height`.  On success the grid holds the given list itself. -/
def FromSlice (T : Type) (height width : Nat) (slice : List T)
    (colMajor : Bool) : Except Err (Array2D T) :=
  if slice.length ≠ width * height then
    .error (.shapeSlice slice.length (width * height))
  else
    .ok ⟨height, width, slice, colMajor⟩

/-- `getUnchecked`: read the buffer at the layout-translated offset. -/
def Array2D.getUnchecked {T : Type} [Inhabited T] (a : Array2D T)
    (row col : Nat) : T :=
  if a.colMajor then a.slice.getD (row + col * a.height) default
  else a.slice.getD (col + row * a.width) default

/-- `setUnchecked`: write the buffer at the layout-translated offset. -/
def Array2D.setUnchecked {T : Type} (a : Array2D T) (row col : Nat)
    (value : T) : Array2D T :=
  if a.colMajor then { a with slice := a.slice.set (row + col * a.height) value }
  else { a with slice := a.slice.set (col + row * a.width) value }

/-- `Get`: checked read, returning the Go pair `(value, ok)`. -/
def Array2D.Get {T : Type} [Inhabited T] (a : Array2D T) (row col : Int) :
    T × Bool :=
  if col < 0 ∨ (a.width : Int) ≤ col ∨ row < 0 ∨ (a.height : Int) ≤ row then
    (default, false)
  else
    (a.getUnchecked row.toNat col.toNat, true)

/-- `Set`: checked write.  Go mutates the shared backing slice and returns
only an error; the model returns the updated grid together with the
(optional) error. -/
def Array2D.Set {T : Type} (a : Array2D T) (row col : Int) (value : T) :
    Array2D T × Option Err :=
  if col < 0 ∨ (a.width : Int) ≤ col then
    (a, some (.outOfBounds .col col a.width))
  else if row < 0 ∨ (a.height : Int) ≤ row then
    (a, some (.outOfBounds .row row a.height))
  else
    (a.setUnchecked row.toNat col.toNat value, none)

/-! ### List lemmas for `storeAt`, `List.set` and `fillSteps` -/

theorem storeAt_length {T : Type} (l : List T) (s : Nat) (src : List T) :
    (storeAt l s src).length = l.length := by
  induction l generalizing s src with
  | nil => simp [storeAt]
  | cons x l ih =>
    cases s with
    | zero =>
      cases src with
      | nil => simp [storeAt]
      | cons v src => simp [storeAt, ih]
    | succ s => simp [storeAt, ih]

theorem getD_storeAt {T : Type} (l : List T) (s : Nat) (src : List T)
    (j : Nat) (d : T) :
    (storeAt l s src).getD j d =
      if s ≤ j ∧ j - s < src.length ∧ j < l.length then src.getD (j - s) d
      else l.getD j d := by
  induction l generalizing s src j with
  | nil => simp [storeAt]
  | cons x l ih =>
    cases s with
    | zero =>
      cases src with
      | nil => simp [storeAt]
      | cons v src =>
        cases j with
        | zero => simp [storeAt]
        | succ j =>
          simp only [storeAt, List.getD_cons_succ, ih, List.length_cons]
          by_cases h1 : j < src.length ∧ j < l.length
          · rw [if_pos (by omega), if_pos (by omega)]
            simp
          · rw [if_neg (by omega), if_neg (by omega)]
    | succ s =>
      cases j with
      | zero => simp [storeAt]
      | succ j =>
        simp only [storeAt, List.getD_cons_succ, ih, List.length_cons]
        by_cases h1 : s ≤ j ∧ j - s < src.length ∧ j < l.length
        · rw [if_pos h1, if_pos (by omega)]
          have : j + 1 - (s + 1) = j - s := by omega
          rw [this]
        · rw [if_neg h1, if_neg (by omega)]

theorem getD_set_eq {T : Type} (l : List T) (i : Nat) (v d : T)
    (h : i < l.length) : (l.set i v).getD i d = v := by
  induction l generalizing i with
  | nil => simp at h
  | cons x l ih =>
    cases i with
    | zero => simp
    | succ i =>
      simp only [List.set_cons_succ, List.getD_cons_succ]
      exact ih i (by simpa using h)

theorem getD_set_ne {T : Type} (l : List T) (i j : Nat) (v d : T)
    (h : i ≠ j) : (l.set i v).getD j d = l.getD j d := by
  induction l generalizing i j with
  | nil => simp
  | cons x l ih =>
    cases i with
    | zero =>
      cases j with
      | zero => exact absurd rfl h
      | succ j => simp
    | succ i =>
      cases j with
      | zero => simp
      | succ j =>
        simp only [List.set_cons_succ, List.getD_cons_succ]
        exact ih i j (by omega)

theorem getD_take {T : Type} (l : List T) (i k : Nat) (d : T) (h : k < i) :
    (l.take i).getD k d = l.getD k d := by
  induction l generalizing i k with
  | nil => simp
  | cons x l ih =>
    cases i with
    | zero => omega
    | succ i =>
      cases k with
      | zero => simp
      | succ k =>
        simp only [List.take_succ_cons, List.getD_cons_succ]
        exact ih i k (by omega)

theorem fillSteps_length {T : Type} (fuel : Nat) (l : List T) (i : Nat) :
    (fillSteps fuel l i).length = l.length := by
  induction fuel generalizing l i with
  | zero => rfl
  | succ fuel ih =>
    simp only [fillSteps]
    by_cases h : i < l.length
    · rw [if_pos h, ih, storeAt_length]
    · rw [if_neg h]

theorem fillSteps_getD {T : Type} (fuel : Nat) (l : List T) (i : Nat) (v : T)
    (hi : 1 ≤ i) (hfuel : l.length ≤ i + fuel)
    (hpre : ∀ j d, j < min i l.length → l.getD j d = v) :
    ∀ j d, j < l.length → (fillSteps fuel l i).getD j d = v := by
  induction fuel generalizing l i with
  | zero =>
    intro j d hj
    exact hpre j d (by omega)
  | succ fuel ih =>
    intro j d hj
    simp only [fillSteps]
    by_cases h : i < l.length
    · rw [if_pos h]
      refine ih (storeAt l i (l.take i)) (i + i) (by omega) ?_ ?_ j d ?_
      · rw [storeAt_length]; omega
      · intro k dk hk
        rw [storeAt_length] at hk
        rw [getD_storeAt, List.length_take]
        by_cases hcase : i ≤ k
        · rw [if_pos ⟨hcase, by omega, by omega⟩]
          rw [getD_take l i (k - i) dk (by omega)]
          exact hpre (k - i) dk (by omega)
        · rw [if_neg (by omega)]
          exact hpre k dk (by omega)
      · rw [storeAt_length]; exact hj
    · rw [if_neg h]
      exact hpre j d (by omega)

theorem fill_getD {T : Type} (l : List T) (v : T) (j : Nat) (d : T)
    (hj : j < l.length) : (fill l v).getD j d = v := by
  match l with
  | [] => simp at hj
  | x :: l0 =>
    show (fillSteps (x :: l0).length ((x :: l0).set 0 v) 1).getD j d = v
    refine fillSteps_getD _ _ _ v (by omega) ?_ ?_ j d ?_
    · rw [List.length_set]; omega
    · intro k dk hk
      rw [List.length_set] at hk
      have hk0 : k = 0 := by simp at hk; omega
      subst hk0
      exact getD_set_eq _ 0 v dk (by simp)
    · rw [List.length_set]; exact hj

theorem fill_length {T : Type} (l : List T) (v : T) :
    (fill l v).length = l.length := by
  match l with
  | [] => rfl
  | x :: l0 =>
    show (fillSteps (x :: l0).length ((x :: l0).set 0 v) 1).length = _
    rw [fillSteps_length, List.length_set]

theorem offset_lt {a b m n : Nat} (ha : a < m) (hb : b < n) :
    a + b * m < n * m := by
  calc a + b * m < m + b * m := by omega
    _ = (b + 1) * m := by ring
    _ ≤ n * m := Nat.mul_le_mul_right m hb

/-! ### Claim C1: Set followed by Get returns the stored value -/

/-- C1: for every grid whose buffer length equals `height*width`, every
in-bounds `(row, col)` and every value `v`, `Set row col v` succeeds
(returns no error) and `Get row col` on the updated grid returns
`(v, true)`, in both layouts. -/
theorem c1_set_then_get {T : Type} [Inhabited T] (a : Array2D T)
    (hlen : a.slice.length = a.height * a.width)
    (row col : Int) (v : T)
    (hr0 : 0 ≤ row) (hr : row < (a.height : Int))
    (hc0 : 0 ≤ col) (hc : col < (a.width : Int)) :
    (a.Set row col v).2 = none ∧
      ((a.Set row col v).1.Get row col) = (v, true) := by
  have hrn : row.toNat < a.height := by omega
  have hcn : col.toNat < a.width := by omega
  rw [Array2D.Set, if_neg (by omega), if_neg (by omega)]
  refine ⟨rfl, ?_⟩
  by_cases hcm : a.colMajor
  · rw [Array2D.setUnchecked, if_pos hcm]
    rw [Array2D.Get]
    rw [if_neg (by simp only []; omega)]
    rw [Array2D.getUnchecked, if_pos hcm]
    simp only []
    rw [getD_set_eq]
    rw [hlen, Nat.mul_comm a.height a.width]
    exact offset_lt hrn hcn
  · rw [Array2D.setUnchecked, if_neg hcm]
    rw [Array2D.Get]
    rw [if_neg (by simp only []; omega)]
    rw [Array2D.getUnchecked, if_neg hcm]
    simp only []
    rw [getD_set_eq]
    rw [hlen]
    exact offset_lt hcn hrn

/-- Witness for C1 at a concrete column-major 2x3 grid, cell (1, 2),
value 42. -/
theorem c1_set_then_get_witness :
    (New Int 2 3 true).slice.length =
        (New Int 2 3 true).height * (New Int 2 3 true).width ∧
      (((New Int 2 3 true).Set 1 2 42).2 = none ∧
        (((New Int 2 3 true).Set 1 2 42).1.Get 1 2) = (42, true)) :=
  ⟨by decide,
    c1_set_then_get (New Int 2 3 true) (by decide) 1 2 42 (by decide)
      (by decide) (by decide) (by decide)⟩

/-! ### Claim C4: NewFilled fills every slot via the doubling fill -/

/-- C4: every in-bounds cell of `NewFilled h w v cm` reads back `(v, true)`,
for both layouts, even though the buffer is filled by the exponential
prefix-doubling copy loop `fill`. -/
theorem c4_newFilled_get {T : Type} [Inhabited T] (h w : Nat) (v : T)
    (cm : Bool) (r c : Nat) (hr : r < h) (hc : c < w) :
    (NewFilled T h w v cm).Get (r : Int) (c : Int) = (v, true) := by
  have hslen : (NewFilled T h w v cm).slice.length = w * h := by
    simp [NewFilled, fill_length]
  rw [Array2D.Get]
  rw [if_neg (by simp only [NewFilled]; omega)]
  have htr : (r : Int).toNat = r := by omega
  have htc : (c : Int).toNat = c := by omega
  rw [htr, htc, Array2D.getUnchecked]
  by_cases hcm : (NewFilled T h w v cm).colMajor
  · rw [if_pos hcm]
    simp only [NewFilled] at hcm ⊢
    rw [fill_getD]
    simp only [List.length_replicate]
    exact offset_lt hr hc
  · rw [if_neg hcm]
    simp only [NewFilled] at hcm ⊢
    rw [fill_getD]
    simp only [List.length_replicate]
    rw [Nat.mul_comm w h]
    exact offset_lt hc hr

/-- Witness for C4 at a concrete 3x4 row-major grid filled with 7. -/
theorem c4_newFilled_get_witness :
    (NewFilled Int 3 4 7 false).Get (2 : Nat) (3 : Nat) = (7, true) :=
  c4_newFilled_get 3 4 7 false 2 3 (by decide) (by decide)

/-! ### FromJagged -/

/-- The column-major inner loop of `FromJagged`:
`for x, val := range row { arr.setUnchecked(y, x, val) }`, with the element
index starting at `x`. -/
def writeRowFrom {T : Type} : Array2D T → Nat → Nat → List T → Array2D T
  | arr, _, _, [] => arr
  | arr, y, x, v :: rest => writeRowFrom (arr.setUnchecked y x v) y (x + 1) rest

/-- The per-row loop of `FromJagged`: reject a row longer than `width`,
otherwise write it at row index `y` — per element for a column-major grid,
by `copy` into the aliasing `Row` slice (offset `y*width`) for row-major. -/
def jaggedLoop {T : Type} : Array2D T → Nat → List (List T) →
    Except Err (Array2D T)
  | arr, _, [] => .ok arr
  | arr, y, row :: rest =>
    if row.length > arr.width then .error (.shapeRow y row.length arr.width)
    else jaggedLoop
      (if arr.colMajor then writeRowFrom arr y 0 row
       else { arr with slice := storeAt arr.slice (y * arr.width) row })
      (y + 1) rest

/-- `FromJagged`: build a grid from a jagged list of rows; error if there are
more than `height` rows or any row is longer than `width`. -/
def FromJagged (T : Type) [Inhabited T] (height width : Nat)
    (jagged : List (List T)) (colMajor : Bool) : Except Err (Array2D T) :=
  if jagged.length > height then
    .error (.shapeHeight jagged.length height)
  else jaggedLoop (New T height width colMajor) 0 jagged

/-! ### Cell-level lemmas about the writers -/

theorem setUnchecked_height {T : Type} (a : Array2D T) (r c : Nat) (v : T) :
    (a.setUnchecked r c v).height = a.height := by
  rw [Array2D.setUnchecked]
  by_cases hcm : a.colMajor <;> simp [hcm]

theorem setUnchecked_width {T : Type} (a : Array2D T) (r c : Nat) (v : T) :
    (a.setUnchecked r c v).width = a.width := by
  rw [Array2D.setUnchecked]
  by_cases hcm : a.colMajor <;> simp [hcm]

theorem setUnchecked_colMajor {T : Type} (a : Array2D T) (r c : Nat) (v : T) :
    (a.setUnchecked r c v).colMajor = a.colMajor := by
  rw [Array2D.setUnchecked]
  by_cases hcm : a.colMajor <;> simp [hcm]

theorem setUnchecked_sliceLength {T : Type} (a : Array2D T) (r c : Nat)
    (v : T) : (a.setUnchecked r c v).slice.length = a.slice.length := by
  rw [Array2D.setUnchecked]
  by_cases hcm : a.colMajor <;> simp [hcm]

/-- The layout translation is injective over in-bounds pairs. -/
theorem offset_inj {r y c x h : Nat} (hr : r < h) (hy : y < h)
    (heq : r + c * h = y + x * h) : r = y ∧ c = x := by
  have hmr : (r + c * h) % h = r := by
    rw [Nat.add_mul_mod_self_right]
    exact Nat.mod_eq_of_lt hr
  have hmy : (y + x * h) % h = y := by
    rw [Nat.add_mul_mod_self_right]
    exact Nat.mod_eq_of_lt hy
  have hry : r = y := by rw [← hmr, heq, hmy]
  refine ⟨hry, ?_⟩
  have hcx : c * h = x * h := by omega
  exact Nat.eq_of_mul_eq_mul_right (by omega) hcx

/-- Reading after an unchecked write: the written cell returns the new
value, all other in-bounds cells are unchanged, in both layouts. -/
theorem getU_setU {T : Type} [Inhabited T] (a : Array2D T) (v : T)
    (hlen : a.slice.length = a.width * a.height) (y x r c : Nat)
    (hy : y < a.height) (hx : x < a.width)
    (hr : r < a.height) (hc : c < a.width) :
    (a.setUnchecked y x v).getUnchecked r c =
      if r = y ∧ c = x then v else a.getUnchecked r c := by
  by_cases hcm : a.colMajor
  · rw [Array2D.setUnchecked, if_pos hcm]
    rw [Array2D.getUnchecked]
    simp only [if_pos hcm]
    rw [Array2D.getUnchecked, if_pos hcm]
    by_cases heq : r = y ∧ c = x
    · rw [if_pos heq, heq.1, heq.2, getD_set_eq]
      rw [hlen]
      exact offset_lt hy hx
    · rw [if_neg heq, getD_set_ne]
      intro hidx
      have hres := offset_inj hy hr hidx
      exact heq ⟨hres.1.symm, hres.2.symm⟩
  · rw [Array2D.setUnchecked, if_neg hcm]
    rw [Array2D.getUnchecked]
    simp only [if_neg hcm]
    rw [Array2D.getUnchecked, if_neg hcm]
    by_cases heq : r = y ∧ c = x
    · rw [if_pos heq, heq.1, heq.2, getD_set_eq]
      rw [hlen, Nat.mul_comm a.width a.height]
      exact offset_lt hx hy
    · rw [if_neg heq, getD_set_ne]
      intro hidx
      have hres := offset_inj hx hc hidx
      exact heq ⟨hres.2.symm, hres.1.symm⟩

theorem writeRowFrom_height {T : Type} (y : Nat) (row : List T) :
    ∀ (arr : Array2D T) (x : Nat),
      (writeRowFrom arr y x row).height = arr.height := by
  induction row with
  | nil => intro arr x; rfl
  | cons v rest ih =>
    intro arr x
    simp only [writeRowFrom]
    rw [ih, setUnchecked_height]

theorem writeRowFrom_width {T : Type} (y : Nat) (row : List T) :
    ∀ (arr : Array2D T) (x : Nat),
      (writeRowFrom arr y x row).width = arr.width := by
  induction row with
  | nil => intro arr x; rfl
  | cons v rest ih =>
    intro arr x
    simp only [writeRowFrom]
    rw [ih, setUnchecked_width]

theorem writeRowFrom_colMajor {T : Type} (y : Nat) (row : List T) :
    ∀ (arr : Array2D T) (x : Nat),
      (writeRowFrom arr y x row).colMajor = arr.colMajor := by
  induction row with
  | nil => intro arr x; rfl
  | cons v rest ih =>
    intro arr x
    simp only [writeRowFrom]
    rw [ih, setUnchecked_colMajor]

theorem writeRowFrom_sliceLength {T : Type} (y : Nat) (row : List T) :
    ∀ (arr : Array2D T) (x : Nat),
      (writeRowFrom arr y x row).slice.length = arr.slice.length := by
  induction row with
  | nil => intro arr x; rfl
  | cons v rest ih =>
    intro arr x
    simp only [writeRowFrom]
    rw [ih, setUnchecked_sliceLength]

/-- Reading after the column-major per-element row write. -/
theorem writeRowFrom_getU {T : Type} [Inhabited T] (y r c : Nat)
    (row : List T) :
    ∀ (arr : Array2D T) (x0 : Nat), arr.colMajor = true →
      arr.slice.length = arr.width * arr.height →
      y < arr.height → x0 + row.length ≤ arr.width →
      r < arr.height → c < arr.width →
      (writeRowFrom arr y x0 row).getUnchecked r c =
        (if r = y ∧ x0 ≤ c ∧ c < x0 + row.length
         then row.getD (c - x0) default
         else arr.getUnchecked r c) := by
  induction row with
  | nil =>
    intro arr x0 hcm hlen hy hrow hr hc
    simp only [writeRowFrom, List.length_nil]
    rw [if_neg (by omega)]
  | cons v rest ih =>
    intro arr x0 hcm hlen hy hrow hr hc
    simp only [writeRowFrom]
    have h1 := setUnchecked_height arr y x0 v
    have h2 := setUnchecked_width arr y x0 v
    have h3 := setUnchecked_colMajor arr y x0 v
    have h4 := setUnchecked_sliceLength arr y x0 v
    have hx0 : x0 < arr.width := by
      simp only [List.length_cons] at hrow; omega
    rw [ih (arr.setUnchecked y x0 v) (x0 + 1) (by rw [h3]; exact hcm)
      (by rw [h4, h2, h1]; exact hlen) (by rw [h1]; exact hy)
      (by rw [h2]; simp only [List.length_cons] at hrow; omega)
      (by rw [h1]; exact hr) (by rw [h2]; exact hc)]
    rw [getU_setU arr v hlen y x0 r c hy hx0 hr hc]
    by_cases hA : r = y ∧ x0 + 1 ≤ c ∧ c < x0 + 1 + rest.length
    · rw [if_pos hA, if_pos (by simp only [List.length_cons]; omega)]
      have hc1 : c - x0 = (c - (x0 + 1)) + 1 := by omega
      rw [hc1, List.getD_cons_succ]
    · rw [if_neg hA]
      by_cases hB : r = y ∧ c = x0
      · rw [if_pos hB, if_pos (by simp only [List.length_cons]; omega)]
        rw [hB.2]
        simp
      · rw [if_neg hB, if_neg (by simp only [List.length_cons]; omega)]

/-- Reading after the row-major `copy` of a row into the aliasing slice. -/
theorem storeRow_getU {T : Type} [Inhabited T] (arr : Array2D T)
    (hcm : arr.colMajor = false)
    (hlen : arr.slice.length = arr.width * arr.height)
    (y : Nat) (row : List T) (hrow : row.length ≤ arr.width)
    (r c : Nat) (hy : y < arr.height) (hr : r < arr.height)
    (hc : c < arr.width) :
    ({ arr with slice := storeAt arr.slice (y * arr.width) row } :
        Array2D T).getUnchecked r c =
      if r = y ∧ c < row.length then row.getD c default
      else arr.getUnchecked r c := by
  conv_rhs => rw [Array2D.getUnchecked]
  rw [Array2D.getUnchecked]
  simp only [hcm, Bool.false_eq_true, if_false]
  rw [getD_storeAt]
  rcases Nat.lt_trichotomy r y with hlt | heq | hgt
  · have hfact : c + r * arr.width < y * arr.width := by
      calc c + r * arr.width < arr.width + r * arr.width := by omega
        _ = (r + 1) * arr.width := by ring
        _ ≤ y * arr.width := Nat.mul_le_mul_right _ (by omega)
    rw [if_neg (by omega), if_neg (by omega)]
  · subst heq
    have hidx : c + r * arr.width < arr.slice.length := by
      rw [hlen, Nat.mul_comm arr.width arr.height]
      exact offset_lt hc hr
    by_cases hcl : c < row.length
    · rw [if_pos (by omega), if_pos ⟨rfl, hcl⟩]
      have hsub : c + r * arr.width - r * arr.width = c := by omega
      rw [hsub]
    · rw [if_neg (by omega), if_neg (by omega)]
  · have hfact : y * arr.width + arr.width ≤ r * arr.width := by
      calc y * arr.width + arr.width = (y + 1) * arr.width := by ring
        _ ≤ r * arr.width := Nat.mul_le_mul_right _ (by omega)
    rw [if_neg (by omega), if_neg (by omega)]

theorem getD_out {T : Type} (l : List T) (j : Nat) (d : T)
    (h : l.length ≤ j) : l.getD j d = d := by
  induction l generalizing j with
  | nil => simp
  | cons x l ih =>
    cases j with
    | zero => simp at h
    | succ j =>
      simp only [List.getD_cons_succ]
      exact ih j (by simpa using h)

theorem getD_replicate_self {T : Type} (n j : Nat) (d : T) :
    (List.replicate n d).getD j d = d := by
  induction n generalizing j with
  | zero => simp
  | succ n ih =>
    cases j with
    | zero => simp [List.replicate]
    | succ j =>
      simp only [List.replicate, List.getD_cons_succ]
      exact ih j

/-- Full characterization of a successful `jaggedLoop` run starting at row
`y`: the loop returns `ok`, preserves the grid shape, and each in-bounds
cell holds the corresponding jagged element when it exists, and the previous
content of the grid otherwise. -/
theorem jaggedLoop_ok {T : Type} [Inhabited T] (rest : List (List T)) :
    ∀ (arr : Array2D T) (y : Nat),
      arr.slice.length = arr.width * arr.height →
      y + rest.length ≤ arr.height →
      (∀ row ∈ rest, row.length ≤ arr.width) →
      ∃ final : Array2D T,
        jaggedLoop arr y rest = .ok final ∧
        final.height = arr.height ∧ final.width = arr.width ∧
        final.colMajor = arr.colMajor ∧
        final.slice.length = arr.slice.length ∧
        ∀ r c, r < arr.height → c < arr.width →
          final.getUnchecked r c =
            (if y ≤ r ∧ r - y < rest.length ∧
                c < (rest.getD (r - y) []).length
             then (rest.getD (r - y) []).getD c default
             else arr.getUnchecked r c) := by
  induction rest with
  | nil =>
    intro arr y hlen hh hw
    refine ⟨arr, rfl, rfl, rfl, rfl, rfl, fun r c hr hc => ?_⟩
    rw [if_neg (by simp only [List.length_nil]; omega)]
  | cons row rest ih =>
    intro arr y hlen hh hw
    have hrowlen : row.length ≤ arr.width := hw row (by simp)
    have hy : y < arr.height := by
      simp only [List.length_cons] at hh; omega
    simp only [jaggedLoop]
    rw [if_neg (by omega)]
    set arrNext : Array2D T :=
      (if arr.colMajor then writeRowFrom arr y 0 row
       else { arr with slice := storeAt arr.slice (y * arr.width) row })
      with harrNext
    have hfH : arrNext.height = arr.height := by
      rw [harrNext]
      by_cases hcm : arr.colMajor
      · rw [if_pos hcm, writeRowFrom_height]
      · rw [if_neg hcm]
    have hfW : arrNext.width = arr.width := by
      rw [harrNext]
      by_cases hcm : arr.colMajor
      · rw [if_pos hcm, writeRowFrom_width]
      · rw [if_neg hcm]
    have hfC : arrNext.colMajor = arr.colMajor := by
      rw [harrNext]
      by_cases hcm : arr.colMajor
      · rw [if_pos hcm, writeRowFrom_colMajor]
      · rw [if_neg hcm]
    have hfL : arrNext.slice.length = arr.slice.length := by
      rw [harrNext]
      by_cases hcm : arr.colMajor
      · rw [if_pos hcm, writeRowFrom_sliceLength]
      · rw [if_neg hcm]
        simp only []
        rw [storeAt_length]
    have hstep : ∀ r c, r < arr.height → c < arr.width →
        arrNext.getUnchecked r c =
          (if r = y ∧ c < row.length then row.getD c default
           else arr.getUnchecked r c) := by
      intro r c hr hc
      rw [harrNext]
      by_cases hcm : arr.colMajor
      · rw [if_pos hcm]
        rw [writeRowFrom_getU y r c row arr 0 hcm hlen hy
          (by omega) hr hc]
        by_cases hcase : r = y ∧ c < row.length
        · rw [if_pos (by omega), if_pos hcase]
          rw [Nat.sub_zero]
        · rw [if_neg (by omega), if_neg hcase]
      · rw [if_neg hcm]
        rw [storeRow_getU arr (by simpa using hcm) hlen y row hrowlen
          r c hy hr hc]
    obtain ⟨final, hrun, hH, hW, hC, hL, hcell⟩ :=
      ih arrNext (y + 1)
        (by rw [hfL, hfW, hfH]; exact hlen)
        (by rw [hfH]; simp only [List.length_cons] at hh; omega)
        (fun q hq => by rw [hfW]; exact hw q (by simp [hq]))
    refine ⟨final, hrun, by rw [hH, hfH], by rw [hW, hfW],
      by rw [hC, hfC], by rw [hL, hfL], fun r c hr hc => ?_⟩
    rw [hcell r c (by rw [hfH]; exact hr) (by rw [hfW]; exact hc)]
    by_cases hA : y + 1 ≤ r ∧ r - (y + 1) < rest.length ∧
        c < (rest.getD (r - (y + 1)) []).length
    · rw [if_pos hA]
      have hsub : r - y = (r - (y + 1)) + 1 := by omega
      rw [if_pos (by
        refine ⟨by omega, by simp only [List.length_cons]; omega, ?_⟩
        rw [hsub, List.getD_cons_succ]
        exact hA.2.2)]
      rw [hsub, List.getD_cons_succ]
    · rw [if_neg hA]
      rw [hstep r c hr hc]
      by_cases hB : r = y ∧ c < row.length
      · rw [if_pos hB]
        rw [if_pos (by
          refine ⟨by omega, by simp only [List.length_cons]; omega, ?_⟩
          have hz : r - y = 0 := by omega
          rw [hz, List.getD_cons_zero]
          exact hB.2)]
        have hz : r - y = 0 := by omega
        rw [hz, List.getD_cons_zero]
      · rw [if_neg hB]
        rw [if_neg (by
          intro hcon
          rcases hcon with ⟨hc1, hc2, hc3⟩
          by_cases hry : r = y
          · rw [hry, Nat.sub_self, List.getD_cons_zero] at hc3
            exact hB ⟨hry, hc3⟩
          · have hsub : r - y = (r - (y + 1)) + 1 := by omega
            rw [hsub, List.getD_cons_succ] at hc3
            simp only [List.length_cons] at hc2
            exact hA ⟨by omega, by omega, hc3⟩)]

/-- A successful `FromJagged` run: shape of the result and the value of
every in-bounds cell (jagged element where present, zero value elsewhere),
for either layout. -/
theorem fromJagged_ok_get {T : Type} [Inhabited T] (h w : Nat)
    (jagged : List (List T)) (cm : Bool)
    (hh : jagged.length ≤ h) (hw : ∀ row ∈ jagged, row.length ≤ w) :
    ∃ g : Array2D T, FromJagged T h w jagged cm = .ok g ∧
      g.height = h ∧ g.width = w ∧ g.colMajor = cm ∧
      ∀ r c : Nat, r < h → c < w →
        g.Get (r : Int) (c : Int) =
          ((jagged.getD r []).getD c default, true) := by
  obtain ⟨final, hrun, hH, hW, hC, hL, hcell⟩ :=
    jaggedLoop_ok jagged (New T h w cm) 0
      (by simp [New]) (by simp [New]; omega) (by simpa [New] using hw)
  refine ⟨final, ?_, by simpa [New] using hH, by simpa [New] using hW,
    by simpa [New] using hC, fun r c hr hc => ?_⟩
  · rw [FromJagged, if_neg (by omega)]
    exact hrun
  · have hH2 : final.height = h := by simpa [New] using hH
    have hW2 : final.width = w := by simpa [New] using hW
    rw [Array2D.Get, if_neg (by rw [hH2, hW2]; omega)]
    have htr : ((r : Int)).toNat = r := by omega
    have htc : ((c : Int)).toNat = c := by omega
    rw [htr, htc]
    rw [hcell r c (by simpa [New] using hr) (by simpa [New] using hc)]
    by_cases hcase : 0 ≤ r ∧ r - 0 < jagged.length ∧
        c < (jagged.getD (r - 0) []).length
    · rw [if_pos hcase]
      simp only [Nat.sub_zero]
    · rw [if_neg hcase]
      have hdef : (New T h w cm).getUnchecked r c = default := by
        rw [Array2D.getUnchecked]
        by_cases hcm2 : (New T h w cm).colMajor
        · rw [if_pos hcm2]
          simp only [New]
          exact getD_replicate_self _ _ _
        · rw [if_neg hcm2]
          simp only [New]
          exact getD_replicate_self _ _ _
      rw [hdef]
      simp only [Nat.sub_zero] at hcase
      by_cases hrow : r < jagged.length
      · have hclen : (jagged.getD r []).length ≤ c := by omega
        rw [getD_out _ _ _ hclen]
      · rw [getD_out jagged r [] (by omega)]
        simp

/-- `jaggedLoop` succeeds (no invariants needed) when every row fits. -/
theorem jaggedLoop_isOk {T : Type} [Inhabited T] (rest : List (List T)) :
    ∀ (arr : Array2D T) (y : Nat), (∀ row ∈ rest, row.length ≤ arr.width) →
      ∃ final, jaggedLoop arr y rest = .ok final := by
  induction rest with
  | nil => intro arr y _; exact ⟨arr, rfl⟩
  | cons row rest ih =>
    intro arr y hw
    simp only [jaggedLoop]
    rw [if_neg (by have := hw row (by simp); omega)]
    set arrNext : Array2D T :=
      (if arr.colMajor then writeRowFrom arr y 0 row
       else { arr with slice := storeAt arr.slice (y * arr.width) row })
      with harrNext
    have hfW : arrNext.width = arr.width := by
      rw [harrNext]
      by_cases hcm : arr.colMajor
      · rw [if_pos hcm, writeRowFrom_width]
      · rw [if_neg hcm]
    exact ih arrNext (y + 1) (fun q hq => by
      rw [hfW]; exact hw q (by simp [hq]))

/-- `jaggedLoop` reports the first over-long row with its index (offset by
the starting row index `y`) and its length. -/
theorem jaggedLoop_error {T : Type} [Inhabited T] (rest : List (List T)) :
    ∀ (arr : Array2D T) (y : Nat),
      (∃ row ∈ rest, arr.width < row.length) →
      ∃ k, k < rest.length ∧ arr.width < (rest.getD k []).length ∧
        jaggedLoop arr y rest =
          .error (.shapeRow (y + k) (rest.getD k []).length arr.width) := by
  induction rest with
  | nil => intro arr y hbad; simp at hbad
  | cons row rest ih =>
    intro arr y hbad
    by_cases hfirst : arr.width < row.length
    · refine ⟨0, by simp, by simpa using hfirst, ?_⟩
      simp only [jaggedLoop]
      rw [if_pos (by simpa using hfirst)]
      simp
    · have hbad2 : ∃ q ∈ rest, arr.width < q.length := by
        rcases hbad with ⟨q, hq, hql⟩
        rcases List.mem_cons.mp hq with hq0 | hqr
        · exact absurd (hq0 ▸ hql) hfirst
        · exact ⟨q, hqr, hql⟩
      simp only [jaggedLoop]
      rw [if_neg (by omega)]
      set arrNext : Array2D T :=
        (if arr.colMajor then writeRowFrom arr y 0 row
         else { arr with slice := storeAt arr.slice (y * arr.width) row })
        with harrNext
      have hfW : arrNext.width = arr.width := by
        rw [harrNext]
        by_cases hcm : arr.colMajor
        · rw [if_pos hcm, writeRowFrom_width]
        · rw [if_neg hcm]
      obtain ⟨k, hk1, hk2, hk3⟩ :=
        ih arrNext (y + 1) (by rw [hfW]; exact hbad2)
      rw [hfW] at hk2 hk3
      refine ⟨k + 1, by simp only [List.length_cons]; omega,
        by simpa using hk2, ?_⟩
      rw [hk3]
      have : y + 1 + k = y + (k + 1) := by omega
      rw [this]
      simp

/-! ### Claim C5: FromJagged zero-pads short rows -/

/-- C5: any jagged input with at most `height` rows, each of length at most
`width`, is accepted, and cell `(r, c)` holds `rows[r][c]` when that element
exists and the zero value otherwise; in particular
`FromJagged 2 3 [[1,2],[3,4,5]]` succeeds with content `[[1,2,0],[3,4,5]]`. -/
theorem c5_fromJagged_pad {T : Type} [Inhabited T] (h w : Nat)
    (jagged : List (List T)) (cm : Bool)
    (hh : jagged.length ≤ h) (hw : ∀ row ∈ jagged, row.length ≤ w) :
    (∃ g : Array2D T, FromJagged T h w jagged cm = .ok g ∧
      ∀ r c : Nat, r < h → c < w →
        g.Get (r : Int) (c : Int) =
          ((jagged.getD r []).getD c default, true)) ∧
      FromJagged Int 2 3 [[1, 2], [3, 4, 5]] false =
        .ok ⟨2, 3, [1, 2, 0, 3, 4, 5], false⟩ := by
  constructor
  · obtain ⟨g, h1, _, _, _, h5⟩ := fromJagged_ok_get h w jagged cm hh hw
    exact ⟨g, h1, h5⟩
  · rfl

/-- Witness for C5 on the jagged input `[[1,2],[3,4,5]]` with a 2x3
row-major target. -/
theorem c5_fromJagged_pad_witness :
    ([[1, 2], [3, 4, 5]] : List (List Int)).length ≤ 2 ∧
      (∀ row ∈ ([[1, 2], [3, 4, 5]] : List (List Int)), row.length ≤ 3) ∧
      ∃ g : Array2D Int, FromJagged Int 2 3 [[1, 2], [3, 4, 5]] false = .ok g ∧
        ∀ r c : Nat, r < 2 → c < 3 →
          g.Get (r : Int) (c : Int) =
            ((([[1, 2], [3, 4, 5]] : List (List Int)).getD r []).getD c
              default, true) :=
  ⟨by decide, by decide,
    (c5_fromJagged_pad 2 3 [[1, 2], [3, 4, 5]] false (by decide)
      (by decide)).1⟩

/-! ### Claim C6: FromJagged failure conditions and error reporting -/

/-- C6: `FromJagged` fails exactly when the row count exceeds `height` or
some row exceeds `width`; an over-height input reports the counts, an
over-long row reports the offending row index and its length against the
width; in particular `FromJagged 2 1 [[1],[2,3]]` reports row 1, length 2,
width 1. -/
theorem c6_fromJagged_error {T : Type} [Inhabited T] (h w : Nat)
    (jagged : List (List T)) (cm : Bool) :
    ((∃ e, FromJagged T h w jagged cm = .error e) ↔
      (jagged.length > h ∨ ∃ row ∈ jagged, row.length > w)) ∧
    (jagged.length > h →
      FromJagged T h w jagged cm = .error (.shapeHeight jagged.length h)) ∧
    (jagged.length ≤ h → ∀ e, FromJagged T h w jagged cm = .error e →
      ∃ k, k < jagged.length ∧ w < (jagged.getD k []).length ∧
        e = .shapeRow k (jagged.getD k []).length w) ∧
    FromJagged Int 2 1 [[1], [2, 3]] false = .error (.shapeRow 1 2 1) := by
  refine ⟨⟨?_, ?_⟩, ?_, ?_, by rfl⟩
  · rintro ⟨e, he⟩
    by_cases hlen : jagged.length > h
    · exact Or.inl hlen
    · right
      by_contra hcon
      push_neg at hcon
      obtain ⟨g, hg⟩ := jaggedLoop_isOk jagged (New T h w cm) 0
        (by simpa [New] using hcon)
      rw [FromJagged, if_neg (by omega), hg] at he
      exact Except.noConfusion he
  · rintro (hlen | ⟨row, hmem, hlong⟩)
    · exact ⟨_, by rw [FromJagged, if_pos hlen]⟩
    · by_cases hlen : jagged.length > h
      · exact ⟨_, by rw [FromJagged, if_pos hlen]⟩
      · obtain ⟨k, _, _, hrun⟩ := jaggedLoop_error jagged (New T h w cm) 0
          ⟨row, hmem, by simpa [New] using hlong⟩
        exact ⟨_, by rw [FromJagged, if_neg (by omega)]; exact hrun⟩
  · intro hlen
    rw [FromJagged, if_pos hlen]
  · intro hlen e he
    rw [FromJagged, if_neg (by omega)] at he
    by_cases hrows : ∀ row ∈ jagged, row.length ≤ w
    · obtain ⟨g, hg⟩ := jaggedLoop_isOk jagged (New T h w cm) 0
        (by simpa [New] using hrows)
      rw [hg] at he
      exact Except.noConfusion he
    · push_neg at hrows
      obtain ⟨k, hk1, hk2, hrun⟩ := jaggedLoop_error jagged (New T h w cm) 0
        (by simpa [New] using hrows)
      rw [hrun] at he
      have hwid : (New T h w cm).width = w := rfl
      rw [hwid] at he hk2
      refine ⟨k, hk1, hk2, ?_⟩
      have hinj := Except.error.inj he
      rw [Nat.zero_add] at hinj
      exact hinj.symm

/-- Witness for C6 at `FromJagged 2 1 [[1],[2,3]]`. -/
theorem c6_fromJagged_error_witness :
    (([[1], [2, 3]] : List (List Int)).length ≤ 2) ∧
      ∃ k, k < ([[1], [2, 3]] : List (List Int)).length ∧
        1 < (([[1], [2, 3]] : List (List Int)).getD k []).length ∧
        (Err.shapeRow 1 2 1) =
          .shapeRow k ((([[1], [2, 3]] : List (List Int)).getD k []).length) 1 :=
  ⟨by decide,
    (c6_fromJagged_error 2 1 [[1], [2, 3]] false).2.2.1 (by decide)
      (.shapeRow 1 2 1) (by rfl)⟩

/-! ### Claim C10: FromJagged is layout-independent -/

/-- C10: for a jagged input accepted without error, the grid built
column-major and the grid built row-major agree on `Get` at every in-bounds
cell, although the two layouts are populated by different code paths. -/
theorem c10_fromJagged_layout {T : Type} [Inhabited T] (h w : Nat)
    (jagged : List (List T)) (g1 g2 : Array2D T)
    (h1 : FromJagged T h w jagged true = .ok g1)
    (h2 : FromJagged T h w jagged false = .ok g2) :
    ∀ r c : Nat, r < h → c < w →
      g1.Get (r : Int) (c : Int) = g2.Get (r : Int) (c : Int) := by
  have hlen : jagged.length ≤ h := by
    by_contra hcon
    rw [FromJagged, if_pos (by omega)] at h1
    exact Except.noConfusion h1
  have hrows : ∀ row ∈ jagged, row.length ≤ w := by
    by_contra hcon
    push_neg at hcon
    obtain ⟨k, _, _, hrun⟩ := jaggedLoop_error jagged (New T h w true) 0
      (by simpa [New] using hcon)
    rw [FromJagged, if_neg (by omega), hrun] at h1
    exact Except.noConfusion h1
  obtain ⟨gA, hrunA, _, _, _, hcellA⟩ :=
    fromJagged_ok_get h w jagged true hlen hrows
  obtain ⟨gB, hrunB, _, _, _, hcellB⟩ :=
    fromJagged_ok_get h w jagged false hlen hrows
  rw [hrunA] at h1
  rw [hrunB] at h2
  have hA : gA = g1 := Except.ok.inj h1
  have hB : gB = g2 := Except.ok.inj h2
  subst hA
  subst hB
  intro r c hr hc
  rw [hcellA r c hr hc, hcellB r c hr hc]

/-- Witness for C10 on the jagged input `[[1,2],[3,4,5]]` at cell (0, 2). -/
theorem c10_fromJagged_layout_witness :
    FromJagged Int 2 3 [[1, 2], [3, 4, 5]] true =
        .ok ⟨2, 3, [1, 3, 2, 4, 0, 5], true⟩ ∧
      FromJagged Int 2 3 [[1, 2], [3, 4, 5]] false =
        .ok ⟨2, 3, [1, 2, 0, 3, 4, 5], false⟩ ∧
      (Array2D.Get ⟨2, 3, [1, 3, 2, 4, 0, 5], true⟩ (0 : Nat) (2 : Nat)) =
        (Array2D.Get ⟨2, 3, [1, 2, 0, 3, 4, 5], false⟩ (0 : Nat) (2 : Nat)) :=
  ⟨by rfl, by rfl,
    c10_fromJagged_layout 2 3 [[1, 2], [3, 4, 5]]
      ⟨2, 3, [1, 3, 2, 4, 0, 5], true⟩ ⟨2, 3, [1, 2, 0, 3, 4, 5], false⟩
      (by rfl) (by rfl) 0 2 (by decide) (by decide)⟩

/-! ### Claim C7: FromSlice length check and buffer adoption -/

/-- C7: `FromSlice` fails exactly when the buffer length differs from
`width*height`, the error carries the actual and expected lengths, and on
success the resulting grid holds the supplied buffer itself (no copy) with
the requested dimensions and layout. -/
theorem c7_fromSlice {T : Type} (h w : Nat) (l : List T) (cm : Bool) :
    ((∃ e, FromSlice T h w l cm = .error e) ↔ l.length ≠ w * h) ∧
      (l.length ≠ w * h →
        FromSlice T h w l cm = .error (.shapeSlice l.length (w * h))) ∧
      (l.length = w * h → FromSlice T h w l cm = .ok ⟨h, w, l, cm⟩) := by
  refine ⟨⟨?_, ?_⟩, ?_, ?_⟩
  · rintro ⟨e, he⟩
    intro hcon
    rw [FromSlice, if_neg (by omega)] at he
    exact Except.noConfusion he
  · intro hne
    exact ⟨_, by rw [FromSlice, if_pos hne]⟩
  · intro hne
    rw [FromSlice, if_pos hne]
  · intro heq
    rw [FromSlice, if_neg (by omega)]

/-- Witness for C7: a length-3 buffer cannot be wrapped as 2x2 (reporting
3 versus 4), and a length-4 buffer is adopted as supplied. -/
theorem c7_fromSlice_witness :
    (([1, 2, 3] : List Int).length ≠ 2 * 2 ∧
        FromSlice Int 2 2 [1, 2, 3] false =
          .error (.shapeSlice ([1, 2, 3] : List Int).length (2 * 2))) ∧
      (([1, 2, 3, 4] : List Int).length = 2 * 2 ∧
        FromSlice Int 2 2 [1, 2, 3, 4] false =
          .ok ⟨2, 2, [1, 2, 3, 4], false⟩) :=
  ⟨⟨by decide, (c7_fromSlice 2 2 [1, 2, 3] false).2.1 (by decide)⟩,
    ⟨by decide, (c7_fromSlice 2 2 [1, 2, 3, 4] false).2.2 (by decide)⟩⟩

/-! ### Fill -/

/-- The column-major cell-by-cell loops of `Fill`
(`for r := row1; r <= row2; r++ { for c := col1; c <= col2; c++ }`),
run on the coordinates exactly as supplied (the source does not normalize
them on this path). -/
def fillCells {T : Type} (a : Array2D T) (row1 col1 row2 col2 : Nat)
    (v : T) : Array2D T :=
  (List.range' row1 (row2 + 1 - row1)).foldl
    (fun acc r =>
      (List.range' col1 (col2 + 1 - col1)).foldl
        (fun acc2 c => acc2.setUnchecked r c v) acc)
    a

/-- `Fill`: validate the four corners, then fill the closed rectangle.
The column-major path runs the unnormalized cell-by-cell loops; the
row-major path swaps the corners so `col1 ≤ col2` and `row1 ≤ row2`,
fills the first region row in place with `fill`, and copies it into each
later region row.  Returns the updated grid with the optional error. -/
def Array2D.Fill {T : Type} (a : Array2D T) (row1 col1 row2 col2 : Int)
    (value : T) : Array2D T × Option Err :=
  if col1 < 0 ∨ (a.width : Int) ≤ col1 then
    (a, some (.outOfBounds .col1 col1 a.width))
  else if row1 < 0 ∨ (a.height : Int) ≤ row1 then
    (a, some (.outOfBounds .row1 row1 a.height))
  else if col2 < 0 ∨ (a.width : Int) ≤ col2 then
    (a, some (.outOfBounds .col2 col2 a.width))
  else if row2 < 0 ∨ (a.height : Int) ≤ row2 then
    (a, some (.outOfBounds .row2 row2 a.height))
  else if a.colMajor then
    (fillCells a row1.toNat col1.toNat row2.toNat col2.toNat value, none)
  else
    let c1 := if col2 < col1 then col2.toNat else col1.toNat
    let c2 := if col2 < col1 then col1.toNat else col2.toNat
    let r1 := if row2 < row1 then row2.toNat else row1.toNat
    let r2 := if row2 < row1 then row1.toNat else row2.toNat
    let firstRow :=
      fill ((a.slice.drop (c1 + r1 * a.width)).take (c2 + 1 - c1)) value
    let s1 := storeAt a.slice (c1 + r1 * a.width) firstRow
    let sFin := (List.range' (r1 + 1) (r2 - r1)).foldl
      (fun s row => storeAt s (c1 + row * a.width) firstRow) s1
    ({ a with slice := sFin }, none)

/-! ### Claim C9: Fill validates all corners before any write -/

/-- C9: whenever any of the four corner coordinates is out of bounds,
`Fill` returns an OutOfBounds error and the grid is unchanged, in both
layouts (all validation precedes any write). -/
theorem c9_fill_oob_atomic {T : Type} (a : Array2D T)
    (row1 col1 row2 col2 : Int) (v : T)
    (hbad : ¬(0 ≤ row1 ∧ row1 < (a.height : Int) ∧
      0 ≤ col1 ∧ col1 < (a.width : Int) ∧
      0 ≤ row2 ∧ row2 < (a.height : Int) ∧
      0 ≤ col2 ∧ col2 < (a.width : Int))) :
    (a.Fill row1 col1 row2 col2 v).1 = a ∧
      ∃ wh i lim,
        (a.Fill row1 col1 row2 col2 v).2 = some (.outOfBounds wh i lim) := by
  rw [Array2D.Fill]
  by_cases h1 : col1 < 0 ∨ (a.width : Int) ≤ col1
  · rw [if_pos h1]
    exact ⟨rfl, .col1, col1, a.width, rfl⟩
  · rw [if_neg h1]
    by_cases h2 : row1 < 0 ∨ (a.height : Int) ≤ row1
    · rw [if_pos h2]
      exact ⟨rfl, .row1, row1, a.height, rfl⟩
    · rw [if_neg h2]
      by_cases h3 : col2 < 0 ∨ (a.width : Int) ≤ col2
      · rw [if_pos h3]
        exact ⟨rfl, .col2, col2, a.width, rfl⟩
      · rw [if_neg h3]
        by_cases h4 : row2 < 0 ∨ (a.height : Int) ≤ row2
        · rw [if_pos h4]
          exact ⟨rfl, .row2, row2, a.height, rfl⟩
        · exact absurd (by omega) hbad

/-- Witness for C9: filling a 2x2 grid with `row2 = 5` fails and changes
nothing. -/
theorem c9_fill_oob_atomic_witness :
    (¬(0 ≤ (0 : Int) ∧ (0 : Int) < ((New Int 2 2 false).height : Int) ∧
      0 ≤ (0 : Int) ∧ (0 : Int) < ((New Int 2 2 false).width : Int) ∧
      0 ≤ (5 : Int) ∧ (5 : Int) < ((New Int 2 2 false).height : Int) ∧
      0 ≤ (1 : Int) ∧ (1 : Int) < ((New Int 2 2 false).width : Int))) ∧
      ((New Int 2 2 false).Fill 0 0 5 1 9).1 = New Int 2 2 false ∧
      ∃ wh i lim, ((New Int 2 2 false).Fill 0 0 5 1 9).2 =
        some (.outOfBounds wh i lim) :=
  ⟨by decide, c9_fill_oob_atomic (New Int 2 2 false) 0 0 5 1 9 (by decide)⟩

/-! ### Claim C2: Fill corner normalization (code bug on column-major) -/

/-- C2 (failing input): on a column-major 2x2 zero grid,
`Fill row1=1 col1=0 row2=0 col2=1 value=42` passes validation, runs the
column-major loops with an empty row range (the corner swap of the source
happens only on the row-major path), returns no error, and writes nothing —
while the claim requires every cell of the normalized rectangle
`[0..1]x[0..1]` to become 42 in both layouts. -/
theorem c2_fill_colMajor_swapped_noop :
    ((New Int 2 2 true).Fill 1 0 0 1 42).2 = none ∧
      ((New Int 2 2 true).Fill 1 0 0 1 42).1 = New Int 2 2 true ∧
      ((New Int 2 2 true).Fill 1 0 0 1 42).1.Get 0 0 = (0, true) ∧
      ((New Int 2 2 true).Fill 1 0 0 1 42).1.Get 0 0 ≠ (42, true) := by
  exact ⟨rfl, rfl, rfl, by decide⟩

/-- For contrast: the row-major path does normalize the same swapped
corners and fills the whole rectangle. -/
theorem c2_fill_rowMajor_swapped_fills :
    ((New Int 2 2 false).Fill 1 0 0 1 42).2 = none ∧
      ((New Int 2 2 false).Fill 1 0 0 1 42).1.slice = [42, 42, 42, 42] := by
  exact ⟨rfl, by decide⟩

/-! ### Rows / Cols cursor iterators -/

/-- The `Rows` iterator: grid, current row (`-1` before the first `Next`),
sticky error. -/
structure Rows (T : Type) where
  arr : Array2D T
  row : Int
  err : Option Err
deriving DecidableEq, Repr

/-- `(*Array2D).Rows()`. -/
def Array2D.Rows {T : Type} (a : Array2D T) : Rows T := ⟨a, -1, none⟩

/-- `Rows.Next`: advance to the next row, false when complete.  The source
never consults the error state here. -/
def Rows.Next {T : Type} (r : Rows T) : Bool × Rows T :=
  if r.row + 1 ≥ (r.arr.height : Int) then (false, r)
  else (true, { r with row := r.row + 1 })

/-- The data a successful `Rows.Scan` copies into the destination:
element-by-element reads for column-major, the contiguous `Row` slice for
row-major.  Either way the width-length destination is fully overwritten. -/
def scanRowData {T : Type} [Inhabited T] (a : Array2D T) (row : Int) :
    List T :=
  if a.colMajor then
    (List.range a.width).map (fun c => a.getUnchecked row.toNat c)
  else
    (a.slice.drop (row.toNat * a.width)).take a.width

/-- `Rows.Scan`: surface a latched error first; a nil or wrong-length
destination latches and returns an error; otherwise the current row is
copied out.  Returns the updated iterator, the destination contents after
the call (`none` models a nil pointer), and the returned error. -/
def Rows.Scan {T : Type} [Inhabited T] (r : Rows T)
    (dest : Option (List T)) : Rows T × Option (List T) × Option Err :=
  match r.err with
  | some e => (r, dest, some e)
  | none =>
    match dest with
    | none => ({ r with err := some .nilDest }, none, some .nilDest)
    | some d =>
      if d.length ≠ r.arr.width then
        ({ r with err := some (.destLength d.length r.arr.width) }, some d,
          some (.destLength d.length r.arr.width))
      else
        (r, some (scanRowData r.arr r.row), none)

/-- `Rows.Err`. -/
def Rows.Err {T : Type} (r : Rows T) : Option Err := r.err

/-- The `Cols` iterator: grid, current column, sticky error. -/
structure Cols (T : Type) where
  arr : Array2D T
  col : Int
  err : Option Err
deriving DecidableEq, Repr

/-- `(*Array2D).Cols()`. -/
def Array2D.Cols {T : Type} (a : Array2D T) : Cols T := ⟨a, -1, none⟩

/-- `Cols.Next`: advance to the next column, false when complete. -/
def Cols.Next {T : Type} (c : Cols T) : Bool × Cols T :=
  if c.col + 1 ≥ (c.arr.width : Int) then (false, c)
  else (true, { c with col := c.col + 1 })

/-- The data a successful `Cols.Scan` copies into the destination. -/
def scanColData {T : Type} [Inhabited T] (a : Array2D T) (col : Int) :
    List T :=
  if !a.colMajor then
    (List.range a.height).map (fun r => a.getUnchecked r col.toNat)
  else
    (a.slice.drop (col.toNat * a.height)).take a.height

/-- `Cols.Scan`: mirror of `Rows.Scan` with the height as the expected
destination length. -/
def Cols.Scan {T : Type} [Inhabited T] (c : Cols T)
    (dest : Option (List T)) : Cols T × Option (List T) × Option Err :=
  match c.err with
  | some e => (c, dest, some e)
  | none =>
    match dest with
    | none => ({ c with err := some .nilDest }, none, some .nilDest)
    | some d =>
      if d.length ≠ c.arr.height then
        ({ c with err := some (.destLength d.length c.arr.height) }, some d,
          some (.destLength d.length c.arr.height))
      else
        (c, some (scanColData c.arr c.col), none)

/-- `Cols.Err`. -/
def Cols.Err {T : Type} (c : Cols T) : Option Err := c.err

/-! ### Claim C3: sticky error latch -/

/-- C3 counterexample: on a 2x2 grid, after a wrong-length `Scan` latches
`ErrDestLength`, a further `Next` is not a no-op — it still advances the
cursor and returns true. -/
theorem c3_next_not_noop :
    ((New Int 2 2 false).Rows.Next.2.Scan (some [0])).2.2 =
        some (.destLength 1 2) ∧
      (((New Int 2 2 false).Rows.Next.2.Scan (some [0])).1.Next).1 = true ∧
      (((New Int 2 2 false).Rows.Next.2.Scan (some [0])).1.Next).2.row = 1 ∧
      ((New Int 2 2 false).Rows.Next.2.Scan (some [0])).1.row = 0 := by
  exact ⟨rfl, rfl, rfl, rfl⟩

/-- C3 (amended): once the latch is set, every `Scan` returns the latched
error leaving the iterator and destination untouched, `Err` surfaces the
same error, and the latch survives `Next` (which itself keeps advancing
normally, unaffected by the error state) — for both `Rows` and `Cols`. -/
theorem c3_sticky_latch {T : Type} [Inhabited T] (e : Err) :
    (∀ (r : Rows T) (dest : Option (List T)), r.err = some e →
      r.Scan dest = (r, dest, some e) ∧ r.Err = some e ∧
        r.Next.2.err = some e ∧
        r.Next.2.Scan dest = (r.Next.2, dest, some e)) ∧
    (∀ (c : Cols T) (dest : Option (List T)), c.err = some e →
      c.Scan dest = (c, dest, some e) ∧ c.Err = some e ∧
        c.Next.2.err = some e ∧
        c.Next.2.Scan dest = (c.Next.2, dest, some e)) := by
  constructor
  · intro r dest herr
    have hnext : r.Next.2.err = some e := by
      rw [Rows.Next]
      by_cases hend : r.row + 1 ≥ (r.arr.height : Int)
      · rw [if_pos hend]; exact herr
      · rw [if_neg hend]; exact herr
    refine ⟨?_, herr, hnext, ?_⟩
    · rw [Rows.Scan.eq_def, herr]
    · rw [Rows.Scan.eq_def, hnext]
  · intro c dest herr
    have hnext : c.Next.2.err = some e := by
      rw [Cols.Next]
      by_cases hend : c.col + 1 ≥ (c.arr.width : Int)
      · rw [if_pos hend]; exact herr
      · rw [if_neg hend]; exact herr
    refine ⟨?_, herr, hnext, ?_⟩
    · rw [Cols.Scan.eq_def, herr]
    · rw [Cols.Scan.eq_def, hnext]

/-- Witness for C3 (amended) at a concrete latched iterator. -/
theorem c3_sticky_latch_witness :
    ((⟨New Int 2 2 false, 0, some Err.nilDest⟩ : Rows Int).err =
        some Err.nilDest) ∧
      ((⟨New Int 2 2 false, 0, some Err.nilDest⟩ : Rows Int).Scan
          (some [0, 0]) =
        (⟨New Int 2 2 false, 0, some Err.nilDest⟩, some [0, 0],
          some Err.nilDest)) :=
  ⟨rfl,
    ((c3_sticky_latch (T := Int) Err.nilDest).1
      ⟨New Int 2 2 false, 0, some Err.nilDest⟩ (some [0, 0]) rfl).1⟩

/-! ### String rendering -/

/-- The edge-summarizing loop shared by the row and column loops of
`String`: visit indices from `y` up to `n`, emitting one piece per visited
index, except that when `n` exceeds `printThreshold` and the index reaches
`edgeItems` a literal `...` piece is emitted and the index jumps to
`n - edgeItems` (the source sets it to `n - edgeItems - 1` and the loop
increment adds one). -/
def edgeLoop (n : Nat) (g : Nat → String) (y : Nat) : List String :=
  if hy : y < n then
    (if hj : n > printThreshold ∧ y = edgeItems then
      "..." :: edgeLoop n g (n - edgeItems)
    else g y :: edgeLoop n g (y + 1))
  else []
termination_by n - y
decreasing_by
  · have hpt : printThreshold = 10 := rfl
    have hei : edgeItems = 5 := rfl
    omega
  · omega

/-- The header written by `String`:
`fmt.Fprintf("Array2d[%s] %dx%d ", typeName, a.height, a.width)`. -/
def headerStr {T : Type} (a : Array2D T) (typeName : String) : String :=
  "Array2d[" ++ typeName ++ "] " ++ toString a.height ++ "x"
    ++ toString a.width ++ " "

/-- One rendered row of `String`: bracketed, space-separated elements with
the column summarization jump; `f` stands for `fmt.Fprint` on an element. -/
def rowStr {T : Type} [Inhabited T] (a : Array2D T) (f : T → String)
    (y : Nat) : String :=
  "[" ++ String.intercalate " "
    (edgeLoop a.width (fun x => f (a.getUnchecked y x)) 0) ++ "]"

/-- `String`: header, then `[]` for an empty grid, otherwise the bracketed
space-separated rows with the row summarization jump. -/
def Array2D.String {T : Type} [Inhabited T] (a : Array2D T) (f : T → String)
    (typeName : String) : String :=
  if a.height = 0 ∨ a.width = 0 then headerStr a typeName ++ "[]"
  else headerStr a typeName ++ "["
    ++ String.intercalate " " (edgeLoop a.height (rowStr a f) 0) ++ "]"

/-- Once past the marker position (or when no summarization applies), the
loop just walks the remaining indices in order. -/
theorem edgeLoop_plain (n : Nat) (g : Nat → String) :
    ∀ (m y : Nat), n - y ≤ m → (n ≤ printThreshold ∨ edgeItems < y) →
      edgeLoop n g y = (List.range' y (n - y)).map g := by
  intro m
  induction m with
  | zero =>
    intro y hm hc
    rw [edgeLoop, dif_neg (by omega)]
    have h0 : n - y = 0 := by omega
    rw [h0]
    rfl
  | succ m ih =>
    intro y hm hc
    by_cases hy : y < n
    · rw [edgeLoop, dif_pos hy, dif_neg (by omega)]
      rw [ih (y + 1) (by omega) (by omega)]
      have hsub : n - y = (n - (y + 1)) + 1 := by omega
      rw [hsub, List.range'_succ, List.map_cons]
    · rw [edgeLoop, dif_neg hy]
      have h0 : n - y = 0 := by omega
      rw [h0]
      rfl

/-- Closed form of the full loop: all indices when `n ≤ printThreshold`,
otherwise the first and last `edgeItems` indices around a `...` piece. -/
theorem edgeLoop_closed (n : Nat) (g : Nat → String) :
    (n ≤ printThreshold → edgeLoop n g 0 = (List.range n).map g) ∧
      (printThreshold < n →
        edgeLoop n g 0 = (List.range edgeItems).map g ++ ["..."]
          ++ (List.range' (n - edgeItems) edgeItems).map g) := by
  have hpt : printThreshold = 10 := rfl
  have hei : edgeItems = 5 := rfl
  constructor
  · intro hn
    rw [edgeLoop_plain n g n 0 (by omega) (Or.inl hn)]
    rw [Nat.sub_zero, List.range_eq_range']
  · intro hn
    have step : ∀ y, y < n → ¬(n > printThreshold ∧ y = edgeItems) →
        edgeLoop n g y = g y :: edgeLoop n g (y + 1) := by
      intro y h1 h2
      rw [edgeLoop, dif_pos h1, dif_neg h2]
    rw [step 0 (by omega) (by omega), step 1 (by omega) (by omega),
      step 2 (by omega) (by omega), step 3 (by omega) (by omega),
      step 4 (by omega) (by omega)]
    rw [edgeLoop, dif_pos (by omega), dif_pos (by omega)]
    rw [edgeLoop_plain n g n (n - edgeItems) (by omega) (by omega)]
    have hcnt : n - (n - edgeItems) = edgeItems := by omega
    rw [hcnt]
    have hr5 : List.range edgeItems = [0, 1, 2, 3, 4] := by rw [hei]; rfl
    rw [hr5]
    simp

/-- C8 (amended): empty grids render as `[]`; for a nonempty grid the
rendering keeps exactly the first and last `edgeItems` rows around a `...`
piece when the height exceeds `printThreshold` and all rows otherwise, and
independently each rendered row keeps the first and last `edgeItems`
elements around a `...` piece when the width exceeds the threshold and all
elements otherwise. -/
theorem c8_string_summarizes {T : Type} [Inhabited T] (a : Array2D T)
    (f : T → String) (tn : String) :
    ((a.height = 0 ∨ a.width = 0) →
      Array2D.String a f tn = headerStr a tn ++ "[]") ∧
    (0 < a.height → 0 < a.width →
      Array2D.String a f tn = headerStr a tn ++ "["
        ++ String.intercalate " "
          (if printThreshold < a.height then
            (List.range edgeItems).map (rowStr a f) ++ ["..."]
              ++ (List.range' (a.height - edgeItems) edgeItems).map
                (rowStr a f)
          else (List.range a.height).map (rowStr a f)) ++ "]") ∧
    (∀ y : Nat, rowStr a f y = "[" ++ String.intercalate " "
        (if printThreshold < a.width then
          (List.range edgeItems).map (fun x => f (a.getUnchecked y x))
            ++ ["..."]
            ++ (List.range' (a.width - edgeItems) edgeItems).map
              (fun x => f (a.getUnchecked y x))
        else (List.range a.width).map (fun x => f (a.getUnchecked y x)))
      ++ "]") := by
  refine ⟨?_, ?_, ?_⟩
  · intro hempty
    rw [Array2D.String, if_pos hempty]
  · intro hh hw
    rw [Array2D.String, if_neg (by omega)]
    by_cases hht : printThreshold < a.height
    · rw [if_pos hht, (edgeLoop_closed a.height (rowStr a f)).2 hht]
    · rw [if_neg hht, (edgeLoop_closed a.height (rowStr a f)).1 (by omega)]
  · intro y
    rw [rowStr]
    by_cases hwt : printThreshold < a.width
    · rw [if_pos hwt,
        (edgeLoop_closed a.width (fun x => f (a.getUnchecked y x))).2 hwt]
    · rw [if_neg hwt,
        (edgeLoop_closed a.width
          (fun x => f (a.getUnchecked y x))).1 (by omega)]

/-- C8 counterexample: a 12x0 grid has height above the threshold yet
renders as `[]` (the empty-grid early return), not as first/last five rows
around a `...` marker as the unqualified claim requires. -/
theorem c8_empty_grid_counterexample :
    printThreshold < (New Int 12 0 false).height ∧
      Array2D.String (New Int 12 0 false) toString "int" =
        "Array2d[int] 12x0 []" ∧
      Array2D.String (New Int 12 0 false) toString "int" ≠
        headerStr (New Int 12 0 false) "int" ++ "["
          ++ String.intercalate " "
            ((List.range edgeItems).map
                (rowStr (New Int 12 0 false) toString) ++ ["..."]
              ++ (List.range'
                  ((New Int 12 0 false).height - edgeItems) edgeItems).map
                (rowStr (New Int 12 0 false) toString)) ++ "]" := by
  refine ⟨by decide, by decide, by decide⟩

/-- Witness for C8 (amended) on a 12x2 grid of sevens (rows summarized,
columns not). -/
theorem c8_string_summarizes_witness :
    0 < (NewFilled Int 12 2 7 false).height ∧
      0 < (NewFilled Int 12 2 7 false).width ∧
      Array2D.String (NewFilled Int 12 2 7 false) toString "int" =
        headerStr (NewFilled Int 12 2 7 false) "int" ++ "["
          ++ String.intercalate " "
            (if printThreshold < (NewFilled Int 12 2 7 false).height then
              (List.range edgeItems).map
                  (rowStr (NewFilled Int 12 2 7 false) toString) ++ ["..."]
                ++ (List.range'
                    ((NewFilled Int 12 2 7 false).height - edgeItems)
                    edgeItems).map
                  (rowStr (NewFilled Int 12 2 7 false) toString)
            else (List.range (NewFilled Int 12 2 7 false).height).map
              (rowStr (NewFilled Int 12 2 7 false) toString)) ++ "]" :=
  ⟨by decide, by decide,
    (c8_string_summarizes (NewFilled Int 12 2 7 false) toString "int").2.1
      (by decide) (by decide)⟩
